import Mathlib

/-!
A shallow embedding of the `git-query` ingestion engine (`src/main.rs`).

The program walks a git repository via `git2`, ingests commits, tags and
branches into an in-memory SQLite store via `rusqlite`, and exposes the store
to ad-hoc SQL queries.  Here the store is a record of three row lists, the
reader (git2) is a record of object data, SQLite statement execution is
modelled by explicit list operations with the constraints of the declared
schema (`INSERT OR IGNORE` on the `commits` primary key, plain `INSERT` with a
primary-key constraint on `tags`, unconstrained appends on `branches`), and a
Rust panic (`unwrap` / `expect`) is modelled by `Option.none` at the outermost
layer, distinguished from a returned `Err` which is modelled by `Except.error`.
-/

/-! ## Rust string primitives used by the source -/

/-- Model of Rust `str::find` for a needle over a character list: the first
index `i` such that the needle is a prefix of the haystack dropped at `i`. -/
def findSub (n : List Char) : List Char → Option Nat
  | [] => if n = [] then some 0 else none
  | a :: t => if n.isPrefixOf (a :: t) then some 0 else (findSub n t).map (· + 1)

/-- Model of Rust `str::contains`. -/
def containsSub (n h : List Char) : Bool :=
  (findSub n h).isSome

/-- Rust `char::is_whitespace`: the Unicode `White_Space` property. -/
def rustIsWhitespace (c : Char) : Bool :=
  c.toNat = 0x09 || c.toNat = 0x0A || c.toNat = 0x0B || c.toNat = 0x0C ||
  c.toNat = 0x0D || c.toNat = 0x20 || c.toNat = 0x85 || c.toNat = 0xA0 ||
  c.toNat = 0x1680 || (0x2000 ≤ c.toNat && c.toNat ≤ 0x200A) ||
  c.toNat = 0x2028 || c.toNat = 0x2029 || c.toNat = 0x202F ||
  c.toNat = 0x205F || c.toNat = 0x3000

/-- Model of Rust `str::trim`: remove leading and trailing whitespace. -/
def rustTrim (l : List Char) : List Char :=
  ((l.dropWhile rustIsWhitespace).reverse.dropWhile rustIsWhitespace).reverse

/-- Model of `.chars().take(7).collect::<String>()`: keep the first 7
characters (the identifier truncation applied throughout the source). -/
def take7 (s : String) : String :=
  ⟨s.data.take 7⟩

/-- The PGP marker literal from `remove_pgp_signature` (src/main.rs line 72). -/
def beginPgpMarker : List Char :=
  "-----BEGIN PGP SIGNATURE-----".data

/-- Core of `remove_pgp_signature` (src/main.rs lines 71-85) over character
lists: find the marker; when present keep the trimmed text strictly before
it, otherwise return the message unchanged. -/
def removePgpCore (message : List Char) : List Char :=
  match findSub beginPgpMarker message with
  | some e => rustTrim (message.take e)
  | none => message

/-- The function `remove_pgp_signature` of src/main.rs. -/
def remove_pgp_signature (message : String) : String :=
  ⟨removePgpCore message.data⟩

/-! ## Timestamp conversion (`chrono`)

The source converts every git timestamp with
`Utc.timestamp_opt(time.seconds(), 0).unwrap().to_string()`: only the
epoch-seconds value is consulted (the git UTC offset is discarded), the
conversion is `Some` exactly when the instant is representable by `chrono`
(between `DateTime::<Utc>::MIN_UTC` and `MAX_UTC`), and `unwrap` panics
otherwise.  The rendering (`Display` of `DateTime<Utc>`) is the proleptic
Gregorian civil date in UTC, `"Y-M-D H:M:S UTC"` with second precision. -/

/-- Seconds of `chrono::DateTime::<Utc>::MIN_UTC` (year -262144). -/
def chronoMinTs : Int := -8334601228800

/-- Seconds of `chrono::DateTime::<Utc>::MAX_UTC` (end of year 262143). -/
def chronoMaxTs : Int := 8210266876799

/-- Whether an epoch-seconds value is representable by the chrono UTC
conversion used in the source. -/
def tsInRange (secs : Int) : Bool :=
  chronoMinTs ≤ secs && secs ≤ chronoMaxTs

/-- Civil date (year, month, day) of a day count relative to 1970-01-01 in
the proleptic Gregorian calendar (the calendar chrono renders). -/
def civilFromDays (z0 : Int) : Int × Nat × Nat :=
  let z := z0 + 719468
  let era := z.fdiv 146097
  let doe := (z - era * 146097).toNat
  let yoe := (doe - doe / 1460 + doe / 36524 - doe / 146096) / 365
  let doy := doe - (365 * yoe + yoe / 4 - yoe / 100)
  let mp := (5 * doy + 2) / 153
  let d := doy - (153 * mp + 2) / 5 + 1
  let m := if mp < 10 then mp + 3 else mp - 9
  (era * 400 + yoe + (if m ≤ 2 then 1 else 0), m, d)

/-- Zero-pad a number below 100 to two digits. -/
def pad2 (n : Nat) : List Char :=
  if n < 10 then '0' :: Nat.toDigits 10 n else Nat.toDigits 10 n

/-- Zero-pad a year magnitude to at least four digits. -/
def pad4 (n : Nat) : List Char :=
  let ds := Nat.toDigits 10 n
  List.replicate (4 - ds.length) '0' ++ ds

/-- Modelled from the dependency: rendering of `chrono::DateTime<Utc>`
(`to_string`), `"Y-M-D H:M:S UTC"`, derived from epoch seconds alone. -/
def formatUtc (secs : Int) : String :=
  let days := secs.fdiv 86400
  let sod := (secs - days * 86400).toNat
  let ymd := civilFromDays days
  let yearChars :=
    if ymd.1 < 0 then '-' :: pad4 ymd.1.natAbs else pad4 ymd.1.toNat
  ⟨yearChars ++ '-' :: pad2 ymd.2.1 ++ '-' :: pad2 ymd.2.2 ++
    ' ' :: pad2 (sod / 3600) ++ ':' :: pad2 (sod % 3600 / 60) ++
    ':' :: pad2 (sod % 60) ++ " UTC".data⟩

/-- Model of `Utc.timestamp_opt(secs, 0)` followed by `to_string`: `some`
exactly on the representable range, so that the `.unwrap()` in the source
panics exactly when this is `none`. -/
def timestampOpt (secs : Int) : Option String :=
  if tsInRange secs then some (formatUtc secs) else none

/-! ## Git object model (the `git2` data consumed by the source) -/

/-- Model of `git2::Time`: epoch seconds plus the timezone offset that the
source never reads. -/
structure GTime where
  seconds : Int
  offsetMinutes : Int
deriving Repr, DecidableEq

/-- Model of `git2::Commit` as consumed: full hex object id, author name
(`author().name()`, `none` when absent or not UTF-8), committer time, and
message (`none` when not valid UTF-8). -/
structure GitCommit where
  id : String
  author : Option String
  time : GTime
  message : Option String
deriving Repr, DecidableEq

/-- Model of `git2::Signature` as consumed: name option and timestamp. -/
structure GSignature where
  name : Option String
  sigWhen : GTime
deriving Repr, DecidableEq

/-- Model of an annotated `git2::Tag` as consumed: own id, name, target id,
rendered target object type (`target_type().map(to_string)`), optional
tagger signature, optional message. -/
structure ATag where
  id : String
  name : Option String
  targetId : String
  targetType : Option String
  tagger : Option GSignature
  message : Option String
deriving Repr, DecidableEq

/-- The enum `GitTag` of src/main.rs lines 13-20. -/
inductive GitTag
  | Annotated (t : ATag)
  | Lightweight (id : String) (name : Option String) (targetId : String)
deriving Repr, DecidableEq

/-- Reader-side error kinds (`git2::Error` classes the source can see). -/
inductive GitErr
  | notFound
  | ambiguous
  | ioError
deriving Repr, DecidableEq

/-- Store-side error kinds (`rusqlite::Error`); the only statement failure
reachable in the model is a primary-key constraint violation on `tags`. -/
inductive SqlErr
  | constraintViolation
deriving Repr, DecidableEq

/-- The enum `Error` of src/main.rs lines 23-27. -/
inductive Error
  | GitError (e : GitErr)
  | SqlError (e : SqlErr)
deriving Repr, DecidableEq

/-! ## The relational store (schema of `init_db`) -/

/-- A row of `commits(id TEXT PRIMARY KEY, author TEXT, date TEXT NOT NULL,
message TEXT)`. -/
structure CommitRow where
  id : String
  author : Option String
  date : String
  message : Option String
deriving Repr, DecidableEq

/-- A row of `tags(id TEXT PRIMARY KEY, name TEXT, target_id TEXT NOT NULL,
target_type TEXT, tagger TEXT, date TEXT, message TEXT)`. -/
structure TagRow where
  id : String
  name : Option String
  target_id : String
  target_type : Option String
  tagger : Option String
  date : Option String
  message : Option String
deriving Repr, DecidableEq

/-- A row of `branches(name TEXT, type TEXT, head_commit_id TEXT,
head_commit_date TEXT)`; `type` is a Lean keyword, stored as `btype`. -/
structure BranchRow where
  name : Option String
  btype : String
  head_commit_id : Option String
  head_commit_date : Option String
deriving Repr, DecidableEq

/-- The in-memory store: the three tables created by `init_db`. -/
structure Store where
  commits : List CommitRow
  tags : List TagRow
  branches : List BranchRow
deriving Repr, DecidableEq

/-- The store right after the three `CREATE TABLE` statements. -/
def Store.empty : Store :=
  ⟨[], [], []⟩

/-! ## Row construction and insertion (src/main.rs lines 51-164) -/

/-- The commit row built by `insert_commit` (src/main.rs lines 51-68):
truncated id, author name, UTC-rendered date, unmodified message.  `none`
models the panic of `datetime.unwrap()` on an unrepresentable timestamp. -/
def commitRowOf (c : GitCommit) : Option CommitRow :=
  (timestampOpt c.time.seconds).map fun d =>
    { id := take7 c.id, author := c.author, date := d, message := c.message }

/-- The function `insert_commit`: build the row, then execute
`INSERT OR IGNORE INTO commits`, which drops the row silently when the
primary key `id` is already present.  `none` models the unwrap panic. -/
def insert_commit (s : Store) (c : GitCommit) : Option Store :=
  (commitRowOf c).map fun row =>
    if s.commits.any (fun r => r.id == row.id) then s
    else { s with commits := s.commits ++ [row] }

/-- The tag row built by `insert_tag` (src/main.rs lines 88-135) for either
shape.  For an annotated tag: truncated ids, tagger name via
`tagger().and_then(|sig| sig.name())`, date via
`tagger().map(|sig| ...unwrap().to_string())` (so `none` at the outer layer
models that unwrap panicking), message through `remove_pgp_signature`.  For a
lightweight tag the statement names only `(id, name, target_id, target_type)`
with `target_type = ObjectType::Commit.to_string()`; omitted columns are
NULL. -/
def tagRowOf : GitTag → Option TagRow
  | GitTag.Annotated t =>
    let taggerName := t.tagger.bind fun sig => sig.name
    let dateOpt : Option (Option String) :=
      match t.tagger with
      | none => some none
      | some sig => (timestampOpt sig.sigWhen.seconds).map some
    dateOpt.map fun date =>
      { id := take7 t.id, name := t.name, target_id := take7 t.targetId,
        target_type := t.targetType, tagger := taggerName, date := date,
        message := t.message.map remove_pgp_signature }
  | GitTag.Lightweight id name targetId =>
    some { id := take7 id, name := name, target_id := take7 targetId,
           target_type := some "commit", tagger := none, date := none,
           message := none }

/-- The function `insert_tag`: build the row, then execute a plain
`INSERT INTO tags` — a duplicate primary key is a statement error
(`Err(SqlError)`), not ignored.  Outer `none` models the unwrap panic. -/
def insert_tag (s : Store) (tag : GitTag) : Option (Except Error Store) :=
  (tagRowOf tag).map fun row =>
    if s.tags.any (fun r => r.id == row.id) then
      Except.error (Error.SqlError SqlErr.constraintViolation)
    else Except.ok { s with tags := s.tags ++ [row] }

/-- Model of `git2::Branch` as consumed by `insert_branch`: the name
(`branch.name().ok()` flattened — `none` when the name is not valid UTF-8 or
unreadable) and the commit the reference peels to
(`reference.peel_to_commit().ok()` — `none` when the head is unresolvable). -/
structure BranchData where
  name : Option String
  head : Option GitCommit
deriving Repr, DecidableEq

/-- The enum `git2::BranchType`. -/
inductive BranchType
  | Local
  | Remote
deriving Repr, DecidableEq

/-- The branch row built by `insert_branch` (src/main.rs lines 138-164):
best-effort head resolution, truncated head id, UTC-rendered head date
(outer `none` models the unwrap panic when the head resolves but its
timestamp is unrepresentable). -/
def branchRowOf (b : BranchData) (bt : BranchType) : Option BranchRow :=
  let head_commit_id := b.head.map fun h => take7 h.id
  let dateOpt : Option (Option String) :=
    match b.head with
    | none => some none
    | some h => (timestampOpt h.time.seconds).map some
  dateOpt.map fun head_commit_date =>
    { name := b.name,
      btype := match bt with
        | BranchType.Local => "local"
        | BranchType.Remote => "remote",
      head_commit_id := head_commit_id,
      head_commit_date := head_commit_date }

/-- The function `insert_branch`: build the row and append it — the
`branches` table has no uniqueness constraint, so the statement always
succeeds. -/
def insert_branch (s : Store) (b : BranchData) (bt : BranchType) :
    Option Store :=
  (branchRowOf b bt).map fun row =>
    { s with branches := s.branches ++ [row] }

/-! ## The reader (repository) model and `init_db` / `traverse` -/

/-- One entry yielded by `repo.tag_foreach`: the reference oid, the raw
reference name (modelled post-UTF-8-decoding: `none` stands for bytes that
are not valid UTF-8), and the result of `repo.find_tag(id)` — `some t` when
the oid is an annotated tag object, `none` when lookup fails (the lightweight
case in the source's match). -/
structure TagEntry where
  id : String
  refName : Option String
  annotated : Option ATag
deriving Repr, DecidableEq

/-- Model of `git2::Repository` as consumed: the commit objects (for
`find_commit` / `find_commit_by_prefix`), the revwalk from a pushed oid, the
tag references with the outcome of the `tag_foreach` primitive itself, and
the branch enumeration (`Err` at either layer models the reader failing). -/
structure Repository where
  commits : List GitCommit
  walkFrom : String → List (Except GitErr String)
  tags : List TagEntry
  tagIterErr : Option GitErr
  branches : Except GitErr (List (Except GitErr (BranchData × BranchType)))

/-- Model of `repo.find_commit(oid)`: exact lookup by full id. -/
def find_commit (repo : Repository) (oid : String) : Except GitErr GitCommit :=
  match repo.commits.find? (fun c => c.id == oid) with
  | some c => Except.ok c
  | none => Except.error GitErr.notFound

/-- Model of `repo.find_commit_by_prefix(short)`: the unique commit whose
full id starts with the given text; zero matches is `ENOTFOUND`, two or more
is `EAMBIGUOUS`. -/
def find_commit_by_prefix (repo : Repository) (short : String) :
    Except GitErr GitCommit :=
  match repo.commits.filter (fun c => short.data.isPrefixOf c.id.data) with
  | [] => Except.error GitErr.notFound
  | [c] => Except.ok c
  | _ :: _ :: _ => Except.error GitErr.ambiguous

/-- Removal of the "refs/tags/" prefix from a lightweight tag reference name
(`strip_prefix("refs/tags/").unwrap_or(&s)` in src/main.rs line 235). -/
def stripRefsTags (s : String) : String :=
  if "refs/tags/".data.isPrefixOf s.data then ⟨s.data.drop 10⟩ else s

/-- One visitor invocation of the tag_foreach closure (src/main.rs lines
218-253): annotated entries insert as `GitTag::Annotated`, all others decode
the reference name, strip the "refs/tags/" prefix when present, and insert a
`GitTag::Lightweight` whose id and target id are both the reference oid. -/
def insertTagEntry (s : Store) (entry : TagEntry) : Option (Except Error Store) :=
  match entry.annotated with
  | some t => insert_tag s (GitTag.Annotated t)
  | none =>
    insert_tag s
      (GitTag.Lightweight entry.id (entry.refName.map stripRefsTags) entry.id)

/-- The tag_foreach iteration with the captured-error side variable
(src/main.rs lines 215-253): each entry is inserted in order; the first
insertion `Err` is captured and iteration stops (returning `false` from the
visitor), so later entries are not inserted; outer `none` models a panic
inside the visitor. -/
def tagLoop : List TagEntry → Store → Option (Store × Option Error)
  | [], s => some (s, none)
  | entry :: rest, s =>
    match insertTagEntry s entry with
    | none => none
    | some (Except.error e) => some (s, some e)
    | some (Except.ok s1) => tagLoop rest s1

/-- The whole tag phase of `init_db` (src/main.rs lines 215-258): run the
visitor loop; `.expect("Tags should be iterable")` panics (`none`) when the
iteration primitive itself fails; otherwise the captured error, when present,
is re-raised as the return value, and a completed iteration with no captured
error continues as success. -/
def tagPhase (tags : List TagEntry) (tagIterErr : Option GitErr) (s : Store) :
    Option (Except Error Store) :=
  match tagIterErr with
  | some _ => none
  | none =>
    match tagLoop tags s with
    | none => none
    | some (_, some e) => some (Except.error e)
    | some (s1, none) => some (Except.ok s1)

/-- The commit walk of `init_db` (src/main.rs lines 208-213): each revwalk
item is unwrapped with `.expect("Failed to get commit ID")` and resolved with
`.expect("Failed to find commit")` — reader failures panic (`none`) — and the
commit is inserted with the idempotent `insert_commit`. -/
def commitWalk (repo : Repository) :
    List (Except GitErr String) → Store → Option Store
  | [], s => some s
  | item :: rest, s =>
    match item with
    | Except.error _ => none
    | Except.ok oid =>
      match find_commit repo oid with
      | Except.error _ => none
      | Except.ok c =>
        match insert_commit s c with
        | none => none
        | some s1 => commitWalk repo rest s1

/-- The branch phase of `init_db` (src/main.rs lines 261-264):
`repo.branches(None).expect(..)` and per-item `.expect(..)` panic (`none`) on
reader failures; each branch row insert error would propagate, but branch
inserts only panic or succeed in the model (the table has no constraint). -/
def branchPhase (bs : List (Except GitErr (BranchData × BranchType))) :
    Store → Option Store
  | s =>
    match bs with
    | [] => some s
    | item :: rest =>
      match item with
      | Except.error _ => none
      | Except.ok (b, bt) =>
        match insert_branch s b bt with
        | none => none
        | some s1 => branchPhase rest s1

/-- The function `init_db` (src/main.rs lines 167-267): create the schema,
walk and insert commits, run the tag phase, insert branches.  The outer
`none` models a panic (reader failures and timestamp unwraps); `Except.error`
is the returned `Err` (in the model only the re-raised captured tag error). -/
def init_db (repo : Repository) (revwalk : List (Except GitErr String)) :
    Option (Except Error Store) :=
  match commitWalk repo revwalk Store.empty with
  | none => none
  | some s1 =>
    match tagPhase repo.tags repo.tagIterErr s1 with
    | none => none
    | some (Except.error e) => some (Except.error e)
    | some (Except.ok s2) =>
      match repo.branches with
      | Except.error _ => none
      | Except.ok bs =>
        match branchPhase bs s2 with
        | none => none
        | some s3 => some (Except.ok s3)

/-- The walk loop of `traverse` (src/main.rs lines 331-337): unlike
`init_db`, revwalk items and commit lookups propagate errors with `?` instead
of panicking; the store reached so far is kept (mutations are in place). -/
def traverseWalk (repo : Repository) :
    List (Except GitErr String) → Store → Option (Store × Option Error)
  | [], s => some (s, none)
  | item :: rest, s =>
    match item with
    | Except.error e => some (s, some (Error.GitError e))
    | Except.ok oid =>
      match find_commit repo oid with
      | Except.error e => some (s, some (Error.GitError e))
      | Except.ok c =>
        match insert_commit s c with
        | none => none
        | some s1 => traverseWalk repo rest s1

/-- The function `traverse` (src/main.rs lines 325-340): resolve the
possibly-abbreviated id via `find_commit_by_prefix` (propagating its
not-found / ambiguous error with no insertion), then walk ancestry from the
resolved commit inserting each commit idempotently. -/
def traverse (s : Store) (repo : Repository) (commit_id : String) :
    Option (Store × Option Error) :=
  match find_commit_by_prefix repo commit_id with
  | Except.error e => some (s, some (Error.GitError e))
  | Except.ok c => traverseWalk repo (repo.walkFrom c.id) s

/-! ## Concrete sample data used to instantiate the theorems -/

/-- A sample commit (full 40-character id, positive UTC offset). -/
def sampleCommit1 : GitCommit :=
  { id := "1111111aaaaaaaaaaaaaaaaaaaaaaaaaaaaaaaaa",
    author := some "Alice",
    time := { seconds := 1700000000, offsetMinutes := 120 },
    message := some "first commit\n" }

/-- A second commit whose id shares the first 7 characters with
`sampleCommit1` but differs afterwards. -/
def sampleCommit2 : GitCommit :=
  { id := "1111111bbbbbbbbbbbbbbbbbbbbbbbbbbbbbbbbb",
    author := some "Bob",
    time := { seconds := 1700000500, offsetMinutes := -300 },
    message := some "second commit\n" }

/-- The commit row `insert_commit` builds from `sampleCommit1`. -/
def sampleRow1 : CommitRow :=
  { id := "1111111", author := some "Alice",
    date := formatUtc 1700000000, message := some "first commit\n" }

/-- A repository with two commits sharing a 7-character id prefix, no tags
and no branches. -/
def sampleRepo : Repository :=
  { commits := [sampleCommit1, sampleCommit2],
    walkFrom := fun _ => [],
    tags := [],
    tagIterErr := none,
    branches := Except.ok [] }

/-- An annotated tag with no tagger and no message. -/
def sampleATag : ATag :=
  { id := "ttttttt1aaaaaaaaaaaaaaaaaaaaaaaaaaaaaaaa",
    name := some "v1",
    targetId := "1111111aaaaaaaaaaaaaaaaaaaaaaaaaaaaaaaaa",
    targetType := some "commit",
    tagger := none,
    message := none }

/-- A second annotated tag whose id collides with `sampleATag` on the first
7 characters. -/
def sampleATagDup : ATag :=
  { id := "ttttttt2bbbbbbbbbbbbbbbbbbbbbbbbbbbbbbbb",
    name := some "v1-dup",
    targetId := "1111111bbbbbbbbbbbbbbbbbbbbbbbbbbbbbbbbb",
    targetType := some "commit",
    tagger := none,
    message := none }

/-- The tag_foreach entry carrying `sampleATag`. -/
def entryV1 : TagEntry :=
  { id := sampleATag.id, refName := some "refs/tags/v1",
    annotated := some sampleATag }

/-- The tag_foreach entry carrying `sampleATagDup` (its insertion violates
the `tags` primary key after `entryV1`). -/
def entryDup : TagEntry :=
  { id := sampleATagDup.id, refName := some "refs/tags/v1-dup",
    annotated := some sampleATagDup }

/-- A lightweight tag entry (lookup as an annotated tag failed). -/
def entryV0 : TagEntry :=
  { id := "sssssss3cccccccccccccccccccccccccccccccc",
    refName := some "refs/tags/v0",
    annotated := none }

/-- The tag row `insert_tag` builds from `sampleATag`. -/
def sampleTagRow1 : TagRow :=
  { id := "ttttttt", name := some "v1", target_id := "1111111",
    target_type := some "commit", tagger := none, date := none,
    message := none }

/-- An annotated tag whose full id differs from its full target id although
both share the same first 7 characters. -/
def collidingTag : ATag :=
  { id := "cccccccddddddddddddddddddddddddddddddddd",
    name := some "self-like",
    targetId := "ccccccceeeeeeeeeeeeeeeeeeeeeeeeeeeeeeeee",
    targetType := some "commit",
    tagger := none,
    message := none }

/-- The tag row `insert_tag` builds from `collidingTag`: both identifier
fields collapse to the same 7-character string. -/
def collidingRow : TagRow :=
  { id := "ccccccc", name := some "self-like", target_id := "ccccccc",
    target_type := some "commit", tagger := none, date := none,
    message := none }

/-- A branch whose reference name is not valid UTF-8 and whose head resolves
to `sampleCommit1`. -/
def sampleBranch : BranchData :=
  { name := none, head := some sampleCommit1 }

/-- A commit whose timestamp lies outside the chrono-representable range. -/
def overflowCommit : GitCommit :=
  { id := "fffffffaaaaaaaaaaaaaaaaaaaaaaaaaaaaaaaaa",
    author := some "Mallory",
    time := { seconds := 9000000000000, offsetMinutes := 0 },
    message := some "too far in the future" }

/-! ## Helper lemmas on the string primitives -/

/-- A successful `findSub` locates an occurrence and is minimal: no earlier
position carries the needle. -/
theorem findSub_some_spec (n : List Char) :
    ∀ (h : List Char) (i : Nat), findSub n h = some i →
      n <+: h.drop i ∧ ∀ j, j < i → ¬ n <+: h.drop j := by
  intro h
  induction h with
  | nil =>
    intro i hf
    by_cases hn : n = []
    · subst hn
      have hi : i = 0 := by simpa [findSub] using hf.symm
      subst hi
      exact ⟨ List.nil_prefix, fun j hj => absurd hj (Nat.not_lt_zero j)⟩
    · simp [findSub, hn] at hf
  | cons a t ih =>
    intro i hf
    simp only [findSub] at hf
    by_cases hp : n.isPrefixOf (a :: t) = true
    · rw [if_pos hp, Option.some.injEq] at hf
      subst hf
      refine ⟨?_, fun j hj => absurd hj (Nat.not_lt_zero j)⟩
      exact List.isPrefixOf_iff_prefix.mp hp
    · rw [if_neg hp, Option.map_eq_some'] at hf
      obtain ⟨i1, hfi, hi⟩ := hf
      obtain ⟨hpre, hmin⟩ := ih i1 hfi
      subst hi
      refine ⟨by simpa [ List.drop_succ_cons] using hpre, ?_⟩
      intro j hj
      match j with
      | 0 =>
        simpa [ List.isPrefixOf_iff_prefix] using hp
      | j1 + 1 =>
        simpa [ List.drop_succ_cons] using hmin j1 (by omega)
    
/-- `findSub` succeeds exactly on haystacks containing the needle as an
infix sublist. -/
theorem findSub_isSome_iff (n : List Char) :
    ∀ h : List Char, (findSub n h).isSome = true ↔ n <:+: h := by
  intro h
  induction h with
  | nil =>
    by_cases hn : n = []
    · subst hn
      simp [findSub, List.infix_nil]
    · simp [findSub, hn, List.infix_nil]
  | cons a t ih =>
    simp only [findSub]
    by_cases hp : n.isPrefixOf (a :: t) = true
    · rw [if_pos hp]
      simpa using List.IsPrefix.isInfix ( List.isPrefixOf_iff_prefix.mp hp)
    · rw [if_neg hp, List.infix_cons_iff]
      have hnp : ¬ n <+: (a :: t) := fun hc =>
        hp ( List.isPrefixOf_iff_prefix.mpr hc)
      simp [Option.isSome_map', ih, hnp]

/-- At the first occurrence index, the strictly-preceding text is free of
the needle. -/
theorem not_infix_take_of_findSub (n hl : List Char) (i : Nat) (hn : n ≠ [])
    (hf : findSub n hl = some i) : ¬ n <:+: hl.take i := by
  obtain ⟨_, hmin⟩ := findSub_some_spec n hl i hf
  intro hinf
  obtain ⟨s, t, hst⟩ := hinf
  have hj : n <+: (hl.take i).drop s.length := by
    rw [← hst, List.append_assoc, List.drop_left' rfl]
    exact ⟨t, rfl⟩
  rw [List.drop_take] at hj
  have hlen : n.length ≤ i - s.length := by
    have := List.IsPrefix.length_le hj
    simp only [List.length_take] at this
    omega
  have hpos : 0 < n.length := List.length_pos.mpr hn
  have hj2 : n <+: hl.drop s.length :=
    List.IsPrefix.trans hj ( List.take_prefix _ _)
  exact hmin s.length (by omega) hj2

/-- Trimming yields an infix of the original character list. -/
theorem rustTrim_within (l : List Char) : rustTrim l <:+: l := by
  unfold rustTrim
  have h1 : l.dropWhile rustIsWhitespace <:+ l := List.dropWhile_suffix _
  have h2 : ((l.dropWhile rustIsWhitespace).reverse.dropWhile rustIsWhitespace) <:+
      (l.dropWhile rustIsWhitespace).reverse := List.dropWhile_suffix _
  have h3 := List.reverse_prefix.mpr h2
  rw [List.reverse_reverse] at h3
  exact List.infix_iff_prefix_suffix.mpr ⟨_, h3, h1⟩

/-- Containment transfers down infix sublists (contrapositive form). -/
theorem containsSub_eq_false_within (n h1 h2 : List Char)
    (hsub : h1 <:+: h2) (hnc : containsSub n h2 = false) :
    containsSub n h1 = false := by
  by_contra hc
  rw [Bool.not_eq_false] at hc
  have h1c : (findSub n h1).isSome = true := hc
  have : n <:+: h2 :=
    List.IsInfix.trans ((findSub_isSome_iff n h1).mp h1c) hsub
  have := (findSub_isSome_iff n h2).mpr this
  simp [containsSub, this] at hnc

/-- Truncation produces exactly 7 characters whenever the source identifier
has at least 7 (full git object ids have 40). -/
theorem take7_length (s : String) (h : 7 ≤ s.data.length) :
    (take7 s).data.length = 7 := by
  simp only [take7, List.length_take]
  omega

/-- C4: for every message string, when the PGP marker first occurs at
position `i` the stripped message is the trimmed text strictly before `i`
and contains no marker occurrence; when the marker is absent the message is
returned unchanged; and stripping is idempotent. -/
theorem pgp_strip_spec (m : String) :
    (∀ i, findSub beginPgpMarker m.data = some i →
      beginPgpMarker <+: m.data.drop i ∧
      (∀ j, j < i → ¬ beginPgpMarker <+: m.data.drop j) ∧
      remove_pgp_signature m = ⟨rustTrim (m.data.take i)⟩ ∧
      containsSub beginPgpMarker (remove_pgp_signature m).data = false)
    ∧ (containsSub beginPgpMarker m.data = false → remove_pgp_signature m = m)
    ∧ remove_pgp_signature (remove_pgp_signature m) = remove_pgp_signature m := by
  have habs : ∀ s : String, containsSub beginPgpMarker s.data = false →
      remove_pgp_signature s = s := by
    intro s hc
    unfold containsSub at hc
    have hnone : findSub beginPgpMarker s.data = none := by
      cases hx : findSub beginPgpMarker s.data with
      | none => rfl
      | some v => rw [hx] at hc; simp at hc
    simp [remove_pgp_signature, removePgpCore, hnone]
  have hcase : ∀ i, findSub beginPgpMarker m.data = some i →
      beginPgpMarker <+: m.data.drop i ∧
      (∀ j, j < i → ¬ beginPgpMarker <+: m.data.drop j) ∧
      remove_pgp_signature m = ⟨rustTrim (m.data.take i)⟩ ∧
      containsSub beginPgpMarker (remove_pgp_signature m).data = false := by
    intro i hf
    have hne : beginPgpMarker ≠ [] := by decide
    obtain ⟨hocc, hmin⟩ := findSub_some_spec _ _ _ hf
    have heq : remove_pgp_signature m = ⟨rustTrim (m.data.take i)⟩ := by
      simp [remove_pgp_signature, removePgpCore, hf]
    have h3 : containsSub beginPgpMarker (m.data.take i) = false := by
      cases hx : containsSub beginPgpMarker (m.data.take i) with
      | false => rfl
      | true =>
        exact absurd ((findSub_isSome_iff _ _).mp hx)
          (not_infix_take_of_findSub _ _ _ hne hf)
    have h4 : containsSub beginPgpMarker (rustTrim (m.data.take i)) = false :=
      containsSub_eq_false_within _ _ _ ( rustTrim_within _) h3
    exact ⟨hocc, hmin, heq, by rw [heq]; exact h4⟩
  refine ⟨hcase, habs m, ?_⟩
  cases hfs : findSub beginPgpMarker m.data with
  | none =>
    have h0 : remove_pgp_signature m = m := by
      apply habs
      unfold containsSub
      rw [hfs]
      rfl
    rw [h0]
    exact h0
  | some i =>
    exact habs _ (hcase i hfs).2.2.2

/-- Witness for `pgp_strip_spec` at a concrete signed message. -/
theorem pgp_strip_spec_witness :
    remove_pgp_signature "release\n-----BEGIN PGP SIGNATURE-----\nabc" =
      ⟨rustTrim (("release\n-----BEGIN PGP SIGNATURE-----\nabc" : String).data.take 8)⟩ ∧
    containsSub beginPgpMarker
      (remove_pgp_signature "release\n-----BEGIN PGP SIGNATURE-----\nabc").data = false ∧
    remove_pgp_signature "no signature here" = "no signature here" := by
  have h := (pgp_strip_spec "release\n-----BEGIN PGP SIGNATURE-----\nabc").1 8 (by decide)
  exact ⟨h.2.2.1, h.2.2.2,
    (pgp_strip_spec "no signature here").2.1 (by decide)⟩

/-- C3: every identifier field stored by the three row builders has exactly
7 characters (full git identifiers have at least 7), and the non-identifier
fields (name, author, tagger, message, type) are stored without identifier
truncation — the only transformation ever applied to them is the separately
specified signature strip on annotated-tag messages. -/
theorem identifier_truncation_invariant (c : GitCommit) (t : ATag)
    (lid : String) (lname : Option String) (ltid : String)
    (b : BranchData) (bt : BranchType)
    (hc : 7 ≤ c.id.data.length)
    (ht1 : 7 ≤ t.id.data.length) (ht2 : 7 ≤ t.targetId.data.length)
    (hl1 : 7 ≤ lid.data.length) (hl2 : 7 ≤ ltid.data.length)
    (hb : ∀ h, b.head = some h → 7 ≤ h.id.data.length) :
    (∀ row, commitRowOf c = some row → row.id.data.length = 7 ∧
      row.author = c.author ∧ row.message = c.message)
    ∧ (∀ row, tagRowOf (GitTag.Annotated t) = some row →
        row.id.data.length = 7 ∧ row.target_id.data.length = 7 ∧
        row.name = t.name ∧ row.target_type = t.targetType ∧
        row.tagger = t.tagger.bind (fun sig => sig.name) ∧
        row.message = t.message.map remove_pgp_signature)
    ∧ (∀ row, tagRowOf (GitTag.Lightweight lid lname ltid) = some row →
        row.id.data.length = 7 ∧ row.target_id.data.length = 7 ∧
        row.name = lname)
    ∧ (∀ row, branchRowOf b bt = some row →
        row.name = b.name ∧
        ∀ hcid, row.head_commit_id = some hcid → hcid.data.length = 7) := by
  refine ⟨?_, ?_, ?_, ?_⟩
  · intro row hrow
    simp only [commitRowOf, Option.map_eq_some'] at hrow
    obtain ⟨d, _, hrow⟩ := hrow
    subst hrow
    exact ⟨take7_length _ hc, rfl, rfl⟩
  · intro row hrow
    simp only [tagRowOf, Option.map_eq_some'] at hrow
    obtain ⟨date, _, hrow⟩ := hrow
    subst hrow
    exact ⟨take7_length _ ht1, take7_length _ ht2, rfl, rfl, rfl, rfl⟩
  · intro row hrow
    simp only [tagRowOf, Option.some.injEq] at hrow
    subst hrow
    exact ⟨take7_length _ hl1, take7_length _ hl2, rfl⟩
  · intro row hrow
    cases hh : b.head with
    | none =>
      simp only [branchRowOf, hh, Option.map_some', Option.map_none',
        Option.some.injEq] at hrow
      subst hrow
      exact ⟨rfl, fun hcid hq => by simp at hq⟩
    | some h =>
      simp only [branchRowOf, hh, Option.map_eq_some'] at hrow
      obtain ⟨d2, _, hrow⟩ := hrow
      subst hrow
      refine ⟨rfl, ?_⟩
      intro hcid hq
      simp only [Option.map_some', Option.some.injEq] at hq
      subst hq
      exact take7_length _ (hb h hh)

/-- Witness for `identifier_truncation_invariant` on the sample objects. -/
theorem identifier_truncation_invariant_witness :
    commitRowOf sampleCommit1 = some sampleRow1 ∧
    sampleRow1.id.data.length = 7 ∧
    sampleRow1.author = sampleCommit1.author ∧
    tagRowOf (GitTag.Annotated sampleATag) = some sampleTagRow1 ∧
    sampleTagRow1.id.data.length = 7 := by
  have h := identifier_truncation_invariant sampleCommit1 sampleATag
    entryV0.id (some "v0") entryV0.id sampleBranch BranchType.Local
    (by decide) (by decide) (by decide) (by decide) (by decide)
    (by
      intro h hh
      rw [show sampleBranch.head = some sampleCommit1 from rfl] at hh
      injection hh with hh
      subst hh
      decide)
  have hr : commitRowOf sampleCommit1 = some sampleRow1 := by decide
  have htr : tagRowOf (GitTag.Annotated sampleATag) = some sampleTagRow1 := by decide
  have h1 := h.1 sampleRow1 hr
  have h2 := h.2.1 sampleTagRow1 htr
  exact ⟨hr, h1.1, h1.2.1, htr, h2.1⟩

/-- C5 counterexample: an annotated tag whose full identity differs from its
target's identity but whose stored row nevertheless has `id = target_id`,
because both identifiers share their first 7 characters. -/
theorem annotated_collision_counterexample :
    collidingTag.id ≠ collidingTag.targetId ∧
    tagRowOf (GitTag.Annotated collidingTag) = some collidingRow ∧
    collidingRow.id = collidingRow.target_id := by
  exact ⟨by decide, by decide, by decide⟩

/-- C5 amended: a lightweight tag row always has `target_type = "commit"`,
`tagger`, `date` and `message` null, and id and target id equal to the
truncated reference identifiers (which `init_db` passes as the same oid); an
annotated tag row has `id ≠ target_id` whenever the TRUNCATED (7-character)
identifiers of the tag and its target differ. -/
theorem tag_shape_amended (lid : String) (lname : Option String)
    (ltid : String) (t : ATag) (entry : TagEntry) (s : Store) :
    (∀ row, tagRowOf (GitTag.Lightweight lid lname ltid) = some row →
      row.target_type = some "commit" ∧ row.tagger = none ∧
      row.date = none ∧ row.message = none ∧
      row.id = take7 lid ∧ row.target_id = take7 ltid)
    ∧ (take7 t.id ≠ take7 t.targetId →
        ∀ row, tagRowOf (GitTag.Annotated t) = some row →
        row.id ≠ row.target_id)
    ∧ (entry.annotated = none →
        insertTagEntry s entry =
          insert_tag s (GitTag.Lightweight entry.id
            (entry.refName.map stripRefsTags) entry.id)) := by
  refine ⟨?_, ?_, ?_⟩
  · intro row hrow
    simp only [tagRowOf, Option.some.injEq] at hrow
    subst hrow
    exact ⟨rfl, rfl, rfl, rfl, rfl, rfl⟩
  · intro hne row hrow
    simp only [tagRowOf, Option.map_eq_some'] at hrow
    obtain ⟨date, _, hrow⟩ := hrow
    subst hrow
    exact hne
  · intro hl
    simp only [insertTagEntry, hl]

/-- Witness for `tag_shape_amended` on the sample lightweight entry. -/
theorem tag_shape_amended_witness :
    (∀ row, tagRowOf (GitTag.Lightweight entryV0.id (some "v0") entryV0.id) =
        some row →
      row.target_type = some "commit" ∧ row.tagger = none ∧
      row.date = none ∧ row.message = none ∧
      row.id = take7 entryV0.id ∧ row.target_id = take7 entryV0.id) ∧
    insertTagEntry Store.empty entryV0 =
      insert_tag Store.empty (GitTag.Lightweight entryV0.id
        (entryV0.refName.map stripRefsTags) entryV0.id) := by
  have h := tag_shape_amended entryV0.id (some "v0") entryV0.id sampleATag
    entryV0 Store.empty
  exact ⟨h.1, h.2.2 (by decide)⟩

/-- Unfolding equation for the ingestion `traverse` (stated explicitly
because the bare name clashes with the library's `Traversable.traverse`). -/
theorem traverse_eq (s : Store) (repo : Repository) (commit_id : String) :
    traverse s repo commit_id =
      match find_commit_by_prefix repo commit_id with
      | Except.error e => some (s, some (Error.GitError e))
      | Except.ok c => traverseWalk repo (repo.walkFrom c.id) s := rfl

/-- C6: a traverse request whose identifier text matches zero commits fails
with the not-found reader error, and one matching two or more commits fails
with the ambiguous reader error; in both cases the returned store is exactly
the input store — no table is touched. -/
theorem extend_fail_fast (s : Store) (repo : Repository) (short : String) :
    (repo.commits.filter (fun c => short.data.isPrefixOf c.id.data) = [] →
      traverse s repo short =
        some (s, some (Error.GitError GitErr.notFound)))
    ∧ (∀ c1 c2 rest,
        repo.commits.filter (fun c => short.data.isPrefixOf c.id.data) =
          c1 :: c2 :: rest →
        traverse s repo short =
          some (s, some (Error.GitError GitErr.ambiguous))) := by
  constructor
  · intro h0
    simp [traverse_eq, find_commit_by_prefix, h0]
  · intro c1 c2 rest h2
    simp [traverse_eq, find_commit_by_prefix, h2]

/-- Witness for `extend_fail_fast`: an unmatched and an ambiguous prefix on
the sample repository, both leaving the empty store empty. -/
theorem extend_fail_fast_witness :
    traverse Store.empty sampleRepo "zz" =
      some (Store.empty, some (Error.GitError GitErr.notFound)) ∧
    traverse Store.empty sampleRepo "11" =
      some (Store.empty, some (Error.GitError GitErr.ambiguous)) := by
  refine ⟨(extend_fail_fast Store.empty sampleRepo "zz").1 (by decide), ?_⟩
  exact (extend_fail_fast Store.empty sampleRepo "11").2
    sampleCommit1 sampleCommit2 [] (by decide)

/-- C7: every stored date is the chrono UTC rendering of the object's epoch
seconds alone — commit rows, annotated-tag rows (when a tagger is present)
and branch head dates all use `formatUtc` of the seconds value, and changing
the git timezone offset of a commit leaves its row unchanged. -/
theorem utc_date_rendering (c : GitCommit) (off : Int) (t : ATag)
    (sig : GSignature) (b : BranchData) (hd : GitCommit) (bt : BranchType) :
    (∀ row, commitRowOf c = some row → row.date = formatUtc c.time.seconds)
    ∧ commitRowOf { c with time := { c.time with offsetMinutes := off } } =
        commitRowOf c
    ∧ (t.tagger = some sig → ∀ row, tagRowOf (GitTag.Annotated t) = some row →
        row.date = some (formatUtc sig.sigWhen.seconds))
    ∧ (b.head = some hd → ∀ row, branchRowOf b bt = some row →
        row.head_commit_date = some (formatUtc hd.time.seconds)) := by
  refine ⟨?_, rfl, ?_, ?_⟩
  · intro row hrow
    simp only [commitRowOf, Option.map_eq_some'] at hrow
    obtain ⟨d, hd1, hrow⟩ := hrow
    subst hrow
    simp only [timestampOpt] at hd1
    split at hd1
    · injection hd1 with hd1
      exact hd1.symm
    · exact absurd hd1 (by simp)
  · intro hsig row hrow
    simp only [tagRowOf, hsig, Option.map_eq_some'] at hrow
    obtain ⟨date, ⟨d2, hd2, hdd⟩, hrow⟩ := hrow
    subst hrow
    subst hdd
    simp only [timestampOpt] at hd2
    split at hd2
    · injection hd2 with hd2
      exact congrArg some hd2.symm
    · exact absurd hd2 (by simp)
  · intro hh row hrow
    simp only [branchRowOf, hh, Option.map_eq_some'] at hrow
    obtain ⟨date, ⟨d2, hd2, hdd⟩, hrow⟩ := hrow
    subst hrow
    subst hdd
    simp only [timestampOpt] at hd2
    split at hd2
    · injection hd2 with hd2
      exact congrArg some hd2.symm
    · exact absurd hd2 (by simp)

/-- Witness for `utc_date_rendering` at the sample commit. -/
theorem utc_date_rendering_witness :
    commitRowOf sampleCommit1 = some sampleRow1 ∧
    sampleRow1.date = formatUtc sampleCommit1.time.seconds ∧
    commitRowOf { sampleCommit1 with
      time := { sampleCommit1.time with offsetMinutes := -600 } } =
      commitRowOf sampleCommit1 := by
  have h := utc_date_rendering sampleCommit1 (-600) sampleATag
    ⟨some "A", ⟨0, 0⟩⟩ sampleBranch sampleCommit1 BranchType.Local
  have hr : commitRowOf sampleCommit1 = some sampleRow1 := by decide
  exact ⟨hr, h.1 sampleRow1 hr, h.2.1⟩

/-- C9: reference names degrade to null instead of failing — a lightweight
tag entry with a valid UTF-8 reference name stores the name with a leading
"refs/tags/" stripped; an invalid (undecodable) reference name still yields
an insertable row whose name is null; and a branch with an unreadable name
still builds a row with a null name and is always appendable. -/
theorem name_degrades_to_null (entry : TagEntry) (s : Store) (rn : String)
    (b : BranchData) (bt : BranchType) :
    (entry.annotated = none →
      insertTagEntry s entry =
        insert_tag s (GitTag.Lightweight entry.id
          (entry.refName.map stripRefsTags) entry.id))
    ∧ (entry.refName = some rn → ∀ row,
        tagRowOf (GitTag.Lightweight entry.id
          (entry.refName.map stripRefsTags) entry.id) = some row →
        row.name = some (stripRefsTags rn))
    ∧ (entry.refName = none → ∀ row,
        tagRowOf (GitTag.Lightweight entry.id
          (entry.refName.map stripRefsTags) entry.id) = some row →
        row.name = none)
    ∧ (b.name = none → ∀ row, branchRowOf b bt = some row →
        row.name = none)
    ∧ (b.head = none → (insert_branch s b bt).isSome = true) := by
  refine ⟨?_, ?_, ?_, ?_, ?_⟩
  · intro hl
    simp only [insertTagEntry, hl]
  · intro hrn row hrow
    simp only [tagRowOf, hrn, Option.map_some', Option.some.injEq] at hrow
    subst hrow
    rfl
  · intro hrn row hrow
    simp only [tagRowOf, hrn, Option.map_none', Option.some.injEq] at hrow
    subst hrow
    rfl
  · intro hn row hrow
    cases hh : b.head with
    | none =>
      simp only [branchRowOf, hh, Option.map_some', Option.map_none',
        Option.some.injEq] at hrow
      subst hrow
      exact hn
    | some h =>
      simp only [branchRowOf, hh, Option.map_eq_some'] at hrow
      obtain ⟨d2, _, hrow⟩ := hrow
      subst hrow
      exact hn
  · intro hh
    simp [insert_branch, branchRowOf, hh]

/-- Witness for `name_degrades_to_null` at the sample lightweight entry and
the name-less sample branch. -/
theorem name_degrades_to_null_witness :
    insertTagEntry Store.empty entryV0 =
      insert_tag Store.empty (GitTag.Lightweight entryV0.id
        (entryV0.refName.map stripRefsTags) entryV0.id) ∧
    (∀ row, tagRowOf (GitTag.Lightweight entryV0.id
        (entryV0.refName.map stripRefsTags) entryV0.id) = some row →
      row.name = some (stripRefsTags "refs/tags/v0")) ∧
    stripRefsTags "refs/tags/v0" = "v0" := by
  have h := name_degrades_to_null entryV0 Store.empty "refs/tags/v0"
    sampleBranch BranchType.Local
  exact ⟨h.1 (by decide), h.2.1 (by decide), by decide⟩

/-- C10: under the chrono-representability precondition all three insert
operations are total (the `unwrap` cannot panic); outside it, the insertion
terminates abnormally (`none`) instead of returning an error. -/
theorem timestamp_range_totality (s : Store) (c c2 : GitCommit) (t : ATag)
    (sig : GSignature) (b : BranchData) (hd : GitCommit) (bt : BranchType) :
    (tsInRange c.time.seconds = true → (insert_commit s c).isSome = true)
    ∧ (t.tagger = some sig → tsInRange sig.sigWhen.seconds = true →
        (insert_tag s (GitTag.Annotated t)).isSome = true)
    ∧ (t.tagger = none → (insert_tag s (GitTag.Annotated t)).isSome = true)
    ∧ (b.head = some hd → tsInRange hd.time.seconds = true →
        (insert_branch s b bt).isSome = true)
    ∧ (b.head = none → (insert_branch s b bt).isSome = true)
    ∧ (tsInRange c2.time.seconds = false → insert_commit s c2 = none) := by
  refine ⟨?_, ?_, ?_, ?_, ?_, ?_⟩
  · intro hr
    simp [insert_commit, commitRowOf, timestampOpt, hr]
  · intro hsig hr
    simp [insert_tag, tagRowOf, hsig, timestampOpt, hr]
  · intro hsig
    simp [insert_tag, tagRowOf, hsig]
  · intro hh hr
    simp [insert_branch, branchRowOf, hh, timestampOpt, hr]
  · intro hh
    simp [insert_branch, branchRowOf, hh]
  · intro hr
    simp [insert_commit, commitRowOf, timestampOpt, hr]

/-- Witness for `timestamp_range_totality`: the sample commit inserts, the
far-future commit panics. -/
theorem timestamp_range_totality_witness :
    (insert_commit Store.empty sampleCommit1).isSome = true ∧
    insert_commit Store.empty overflowCommit = none := by
  have h := timestamp_range_totality Store.empty sampleCommit1 overflowCommit
    sampleATag ⟨some "A", ⟨0, 0⟩⟩ sampleBranch sampleCommit1 BranchType.Local
  exact ⟨h.1 (by decide), h.2.2.2.2.2 (by decide)⟩

/-- The row built by `insert_commit` always carries the truncated id. -/
theorem commitRow_id (c : GitCommit) (row : CommitRow)
    (h : commitRowOf c = some row) : row.id = take7 c.id := by
  simp only [commitRowOf, Option.map_eq_some'] at h
  obtain ⟨d, _, h⟩ := h
  subst h
  rfl

/-- The `INSERT OR IGNORE` statement appends when the key is absent. -/
theorem insert_commit_app (s : Store) (c : GitCommit) (row : CommitRow)
    (hrow : commitRowOf c = some row)
    (hmem : s.commits.any (fun r => r.id == row.id) = false) :
    insert_commit s c = some { s with commits := s.commits ++ [row] } := by
  simp only [insert_commit, hrow, Option.map_some', Option.some.injEq]
  rw [if_neg (by simp [hmem])]

/-- The `INSERT OR IGNORE` statement drops the row silently when the
primary key is already present. -/
theorem insert_commit_present (s : Store) (c : GitCommit) (row : CommitRow)
    (hrow : commitRowOf c = some row)
    (hmem : ∃ r ∈ s.commits, r.id = row.id) :
    insert_commit s c = some s := by
  obtain ⟨r, hr, hrid⟩ := hmem
  have hany : s.commits.any (fun r => r.id == row.id) = true :=
    List.any_eq_true.mpr ⟨r, hr, by simp [hrid]⟩
  simp only [insert_commit, hrow, Option.map_some', Option.some.injEq]
  rw [if_pos hany]

/-- Inversion for a successful `insert_commit`. -/
theorem insert_commit_inv (s : Store) (c : GitCommit) (s1 : Store)
    (h : insert_commit s c = some s1) :
    ∃ row, commitRowOf c = some row ∧
      (s1 = s ∨ s1 = { s with commits := s.commits ++ [row] }) := by
  cases hrow : commitRowOf c with
  | none => simp [insert_commit, hrow] at h
  | some row =>
    refine ⟨row, rfl, ?_⟩
    simp only [insert_commit, hrow, Option.map_some', Option.some.injEq] at h
    by_cases hmem : s.commits.any (fun r => r.id == row.id) = true
    · rw [if_pos hmem] at h
      exact Or.inl h.symm
    · rw [if_neg hmem] at h
      exact Or.inr h.symm

/-- A successful insertion leaves the truncated id present in the table. -/
theorem insert_commit_mem_id (s : Store) (c : GitCommit) (row : CommitRow)
    (s1 : Store) (hrow : commitRowOf c = some row)
    (h : insert_commit s c = some s1) :
    ∃ r ∈ s1.commits, r.id = row.id := by
  obtain ⟨row2, hrow2, hor⟩ := insert_commit_inv s c s1 h
  rw [hrow] at hrow2
  injection hrow2 with hrow2
  subst hrow2
  cases hor with
  | inl heq =>
    subst heq
    simp only [insert_commit, hrow, Option.map_some', Option.some.injEq] at h
    by_cases hmem : s1.commits.any (fun r => r.id == row.id) = true
    · obtain ⟨r, hr, hrid⟩ := List.any_eq_true.mp hmem
      exact ⟨r, hr, by simpa using hrid⟩
    · rw [if_neg hmem] at h
      exact absurd (congrArg Store.commits h.symm) (by simp)
  | inr heq =>
    subst heq
    exact ⟨row, by simp, rfl⟩

/-- Commit tables only grow along `insert_commit`. -/
theorem insert_commit_commits_mono (s : Store) (c : GitCommit) (s1 : Store)
    (h : insert_commit s c = some s1) :
    ∃ l, s1.commits = s.commits ++ l := by
  obtain ⟨row, _, hor⟩ := insert_commit_inv s c s1 h
  cases hor with
  | inl heq => exact ⟨[], by simp [heq]⟩
  | inr heq => exact ⟨[row], by simp [heq]⟩

/-- Commit tables only grow along the traverse walk. -/
theorem traverseWalk_mono (repo : Repository) :
    ∀ (w : List (Except GitErr String)) (s s1 : Store) (e : Option Error),
      traverseWalk repo w s = some (s1, e) →
      ∃ l, s1.commits = s.commits ++ l := by
  intro w
  induction w with
  | nil =>
    intro s s1 e h
    simp only [traverseWalk, Option.some.injEq, Prod.mk.injEq] at h
    exact ⟨[], by simp [h.1.symm]⟩
  | cons item rest ih =>
    intro s s1 e h
    cases item with
    | error ge =>
      simp only [traverseWalk, Option.some.injEq, Prod.mk.injEq] at h
      exact ⟨[], by simp [h.1.symm]⟩
    | ok oid =>
      simp only [traverseWalk] at h
      cases hfc : find_commit repo oid with
      | error ge =>
        simp only [hfc, Option.some.injEq, Prod.mk.injEq] at h
        exact ⟨[], by simp [h.1.symm]⟩
      | ok c =>
        simp only [hfc] at h
        cases hic : insert_commit s c with
        | none => simp only [hic] at h; exact absurd h (by simp)
        | some s2 =>
          simp only [hic] at h
          obtain ⟨l2, hl2⟩ := ih s2 s1 e h
          obtain ⟨l1, hl1⟩ := insert_commit_commits_mono s c s2 hic
          exact ⟨l1 ++ l2, by rw [hl2, hl1, List.append_assoc]⟩

/-- Replaying a committed traverse walk on its own result is a no-op: the
second pass sees every truncated id already present and changes nothing. -/
theorem traverseWalk_replay (repo : Repository) :
    ∀ (w : List (Except GitErr String)) (s s1 : Store),
      traverseWalk repo w s = some (s1, none) →
      traverseWalk repo w s1 = some (s1, none) := by
  intro w
  induction w with
  | nil =>
    intro s s1 h
    simp only [traverseWalk, Option.some.injEq, Prod.mk.injEq] at h
    simp [traverseWalk]
  | cons item rest ih =>
    intro s s1 h
    cases item with
    | error ge => simp [traverseWalk] at h
    | ok oid =>
      simp only [traverseWalk] at h ⊢
      cases hfc : find_commit repo oid with
      | error ge => simp only [hfc] at h; simp at h
      | ok c =>
        simp only [hfc] at h ⊢
        cases hic : insert_commit s c with
        | none => simp only [hic] at h; exact absurd h (by simp)
        | some s2 =>
          simp only [hic] at h
          obtain ⟨row, hrow, _⟩ := insert_commit_inv s c s2 hic
          obtain ⟨r, hr, hrid⟩ := insert_commit_mem_id s c row s2 hrow hic
          obtain ⟨l, hl⟩ := traverseWalk_mono repo rest s2 s1 none h
          have hmem1 : ∃ r2 ∈ s1.commits, r2.id = row.id := by
            refine ⟨r, ?_, hrid⟩
            rw [hl]
            exact List.mem_append.mpr (Or.inl hr)
          have hins : insert_commit s1 c = some s1 :=
            insert_commit_present s1 c row hrow hmem1
          simp only [hins]
          exact ih s2 s1 h

/-- C1: inserting the same truncated commit id twice leaves exactly one row
carrying the first insertion's field values — the duplicate insert is a
silent no-op, never an error and never an update — and consequently
replaying a whole (traverse) walk over its own result changes nothing. -/
theorem commit_insert_idempotent (s : Store) (c c2 : GitCommit)
    (row : CommitRow)
    (hrow : commitRowOf c = some row)
    (habs : s.commits.any (fun r => r.id == row.id) = false)
    (hid : take7 c2.id = take7 c.id)
    (hts : tsInRange c2.time.seconds = true) :
    ∃ s1, insert_commit s c = some s1 ∧
      insert_commit s1 c2 = some s1 ∧
      s1.commits.filter (fun r => r.id == row.id) = [row] ∧
      s1.tags = s.tags ∧ s1.branches = s.branches ∧
      (∀ (repo : Repository) (w : List (Except GitErr String)) (s0 s2 : Store),
        traverseWalk repo w s0 = some (s2, none) →
        traverseWalk repo w s2 = some (s2, none)) := by
  have hins := insert_commit_app s c row hrow habs
  have hrow2 : commitRowOf c2 =
      some (CommitRow.mk (take7 c2.id) c2.author
        (formatUtc c2.time.seconds) c2.message) := by
    simp [commitRowOf, timestampOpt, hts]
  have hid2 : take7 c2.id = row.id := by
    rw [hid, ← commitRow_id c row hrow]
  have hmem : ∃ r ∈ ({ s with commits := s.commits ++ [row] } : Store).commits,
      r.id = take7 c2.id := ⟨row, by simp, hid2.symm⟩
  have hins2 : insert_commit { s with commits := s.commits ++ [row] } c2 =
      some { s with commits := s.commits ++ [row] } :=
    insert_commit_present _ c2 _ hrow2 hmem
  refine ⟨{ s with commits := s.commits ++ [row] }, hins, hins2, ?_, rfl, rfl,
    fun repo w s0 s2 => traverseWalk_replay repo w s0 s2⟩
  have hfe : s.commits.filter (fun r => r.id == row.id) = [] := by
    rw [List.filter_eq_nil_iff]
    intro a ha
    have := List.any_eq_false.mp habs a ha
    simpa using this
  simp [List.filter_append, hfe]

/-- Witness for `commit_insert_idempotent`: two sample commits sharing the
first 7 id characters inserted into the empty store. -/
theorem commit_insert_idempotent_witness :
    ∃ s1, insert_commit Store.empty sampleCommit1 = some s1 ∧
      insert_commit s1 sampleCommit2 = some s1 ∧
      s1.commits.filter (fun r => r.id == sampleRow1.id) = [sampleRow1] ∧
      s1.tags = Store.empty.tags ∧ s1.branches = Store.empty.branches ∧
      (∀ (repo : Repository) (w : List (Except GitErr String)) (s0 s2 : Store),
        traverseWalk repo w s0 = some (s2, none) →
        traverseWalk repo w s2 = some (s2, none)) :=
  commit_insert_idempotent Store.empty sampleCommit1 sampleCommit2 sampleRow1
    (by decide) (by decide) (by decide) (by decide)

/-- A tag loop that completes cleanly on a first segment continues on the
appended remainder from the reached store. -/
theorem tagLoop_append (l1 l2 : List TagEntry) :
    ∀ (s s1 : Store), tagLoop l1 s = some (s1, none) →
      tagLoop (l1 ++ l2) s = tagLoop l2 s1 := by
  induction l1 with
  | nil =>
    intro s s1 h
    simp only [tagLoop, Option.some.injEq, Prod.mk.injEq] at h
    rw [List.nil_append, h.1]
  | cons entry rest ih =>
    intro s s1 h
    simp only [tagLoop, List.cons_append] at h ⊢
    cases hie : insertTagEntry s entry with
    | none => simp only [hie] at h; exact absurd h (by simp)
    | some r =>
      cases r with
      | error e =>
        simp only [hie] at h
        exact absurd h (by simp)
      | ok s2 =>
        simp only [hie] at h ⊢
        exact ih s2 s1 h

/-- C2: when a tag insertion fails inside the visitor loop, the first error
is captured, iteration stops (no later entry is inserted, the store stays at
the state reached before the failing entry), and the tag phase re-raises
exactly the captured error after the iteration call returns; a completed
loop with no captured error is reported as success with the reached store,
never as a failure. -/
theorem tag_error_aggregation (s s1 : Store) (l1 l2 : List TagEntry)
    (bad : TagEntry) (e : Error)
    (h1 : tagLoop l1 s = some (s1, none))
    (h2 : insertTagEntry s1 bad = some (Except.error e)) :
    tagLoop (l1 ++ bad :: l2) s = some (s1, some e)
    ∧ tagPhase (l1 ++ bad :: l2) none s = some (Except.error e)
    ∧ (∀ (l : List TagEntry) (s2 : Store), tagLoop l s = some (s2, none) →
        tagPhase l none s = some (Except.ok s2)) := by
  have hl : tagLoop (l1 ++ bad :: l2) s = some (s1, some e) := by
    rw [tagLoop_append l1 (bad :: l2) s s1 h1]
    simp only [tagLoop, h2]
  refine ⟨hl, ?_, ?_⟩
  · simp only [tagPhase, hl]
  · intro l s2 h
    simp only [tagPhase, h]

/-- Witness for `tag_error_aggregation`: the duplicate annotated tag aborts
the loop right after the first tag, the lightweight entry after it is never
inserted, and the constraint error is re-raised by the tag phase. -/
theorem tag_error_aggregation_witness :
    tagLoop [entryV1, entryDup, entryV0] Store.empty =
      some (⟨[], [sampleTagRow1], []⟩,
        some (Error.SqlError SqlErr.constraintViolation)) ∧
    tagPhase [entryV1, entryDup, entryV0] none Store.empty =
      some (Except.error (Error.SqlError SqlErr.constraintViolation)) := by
  have h := tag_error_aggregation Store.empty ⟨[], [sampleTagRow1], []⟩
    [entryV1] [entryV0] entryDup (Error.SqlError SqlErr.constraintViolation)
    (by decide) (by rfl)
  exact ⟨h.1, h.2.1⟩

/-- C8 counterexample: a reader-layer failure inside `init_db` — here the
ancestry walk failing to yield a commit id — does not produce a returned
error value at all: the run ends in the panic of
`.expect("Failed to get commit ID")`, modelled as `none`, so no tagged error
reaches the caller. -/
theorem init_reader_error_counterexample :
    init_db sampleRepo [Except.error GitErr.ioError] = none := by
  rfl

/-- C8 amended: every reader-layer failure inside `init_db` — a revwalk item
that is an error, a commit id that cannot be resolved, a failure of the tag
iteration primitive, or a failure enumerating branches — terminates the run
abnormally (panic, `none`) instead of returning an error; only a captured
tag-insertion SQL error is returned to the caller as a tagged error. -/
theorem init_reader_failures_panic (repo : Repository)
    (rest rv : List (Except GitErr String)) (g : GitErr) (oid : String)
    (s s1 : Store) (e : Error) :
    (init_db repo (Except.error g :: rest) = none)
    ∧ (find_commit repo oid = Except.error g →
        init_db repo (Except.ok oid :: rest) = none)
    ∧ (repo.tagIterErr = some g → tagPhase repo.tags repo.tagIterErr s = none)
    ∧ (commitWalk repo rv Store.empty = some s1 →
        repo.tagIterErr = some g → init_db repo rv = none)
    ∧ (commitWalk repo rv Store.empty = some s1 →
        tagPhase repo.tags repo.tagIterErr s1 = some (Except.ok s) →
        repo.branches = Except.error g → init_db repo rv = none)
    ∧ (commitWalk repo rv Store.empty = some s1 →
        tagPhase repo.tags repo.tagIterErr s1 = some (Except.error e) →
        init_db repo rv = some (Except.error e)) := by
  refine ⟨?_, ?_, ?_, ?_, ?_, ?_⟩
  · simp [init_db, commitWalk]
  · intro hfc
    simp [init_db, commitWalk, hfc]
  · intro hti
    simp [tagPhase, hti]
  · intro hcw hti
    simp [init_db, hcw, tagPhase, hti]
  · intro hcw htp hbr
    simp [init_db, hcw, htp, hbr]
  · intro hcw htp
    simp [init_db, hcw, htp]

/-- Witness for `init_reader_failures_panic` on concrete repositories: a
failing revwalk item, an unresolvable commit id, and a failing tag
iteration primitive all end in `none`. -/
theorem init_reader_failures_panic_witness :
    init_db sampleRepo
      [Except.error GitErr.notFound, Except.ok sampleCommit1.id] = none ∧
    init_db sampleRepo
      [Except.ok "0000000", Except.ok sampleCommit1.id] = none ∧
    init_db { sampleRepo with tagIterErr := some GitErr.ioError } [] =
      none := by
  have h := init_reader_failures_panic sampleRepo
    [Except.ok sampleCommit1.id] [] GitErr.notFound "0000000"
    Store.empty Store.empty (Error.SqlError SqlErr.constraintViolation)
  have h2 := init_reader_failures_panic
    { sampleRepo with tagIterErr := some GitErr.ioError }
    [] [] GitErr.ioError "0000000" Store.empty Store.empty
    (Error.SqlError SqlErr.constraintViolation)
  exact ⟨h.1, h.2.1 (by rfl),
    h2.2.2.2.1 (by rfl) (by rfl)⟩
